import Mathlib

/-!
Verification of the hyperparameter-tuning engine (`experiment.py`).

The Python source is shallowly embedded: numbers are rationals (the float
constants of the source are embedded as their decimal literals), text is
`List Char` when its character structure matters and `String` for names and
paths, dictionaries that are iterated in insertion order are association
lists, and fallible code (Python exceptions) returns `Option` / `Except`.
File systems are passed in explicitly as functions from path to content.
-/

namespace Experiment

/-! ## Generic Option traversal (Python loops that raise on first failure) -/

/-- Map a fallible function over a list, failing on the first failure,
exactly like a Python loop whose body may raise / `return None`. -/
def optMapM {α β : Type} (f : α → Option β) : List α → Option (List β)
  | [] => some []
  | a :: l =>
    match f a, optMapM f l with
    | some b, some l2 => some (b :: l2)
    | _, _ => none

/-! ## Character / text utilities

Models of the Python `str` operations the source uses: `str.split(sep)`,
`str.split()` (whitespace runs), `str.strip()`, `file.readlines()`. -/

/-- Whitespace for `strip`/`split`, as Python treats it in this code
(space, newline, tab, carriage return). -/
def isPySpace (c : Char) : Bool :=
  c = ' ' || c = '\n' || c = '\t' || c = '\r'

/-- Python `s.split(sep)` for a one-character separator: splits into the
(possibly empty) segments between occurrences of `sep`. -/
def splitOnChar (sep : Char) : List Char → List (List Char)
  | [] => [[]]
  | c :: t =>
    if c = sep then [] :: splitOnChar sep t
    else
      match splitOnChar sep t with
      | [] => [[c]]
      | h :: r => (c :: h) :: r

/-- Python `s.strip()`: remove leading and trailing whitespace. -/
def pyStrip (l : List Char) : List Char :=
  (((l.dropWhile isPySpace).reverse).dropWhile isPySpace).reverse

/-- Python `file.readlines()`: chunks ending in a newline (which is kept),
with a possibly unterminated last chunk. -/
def readlines : List Char → List (List Char)
  | [] => []
  | c :: t =>
    if c = '\n' then ['\n'] :: readlines t
    else
      match readlines t with
      | [] => [[c]]
      | h :: r => (c :: h) :: r

/-- Python `s.split()` with no argument: split on runs of whitespace,
discarding empty fields (written as a right fold over the characters so
that it is structurally recursive: whitespace closes the token being
collected, any other character extends it). -/
def pySplitWs (l : List Char) : List (List Char) :=
  let r := l.foldr (fun c acc =>
    if isPySpace c then (([] : List Char), if acc.1 = [] then acc.2 else acc.1 :: acc.2)
    else (c :: acc.1, acc.2)) ([], [])
  if r.1 = [] then r.2 else r.1 :: r.2

/-! ## Decimal printing and parsing

The source persists parameter pairs with `f"{pair[0]}, {pair[1]}\n"` and
reloads them with `float(line.split(",")[i].strip())`.  The numeric values
are binary floats, i.e. rationals whose denominator is of the form
`2^a * 5^b`; `str`/`float` round-trip exactly on them.  We model the pair
`str`/`float` by an exact decimal printer and parser over `ℚ`. -/

/-- Digit value of a character, `none` for non-digits (the digit part of
Python `float()` parsing). -/
def digitVal (c : Char) : Option Nat :=
  if '0' ≤ c ∧ c ≤ '9' then some (c.toNat - 48) else none

/-- Parse a non-empty big-endian digit string into a natural number. -/
def parseDigitsBE (l : List Char) : Option Nat :=
  if l = [] then none
  else (optMapM digitVal l).map (fun ds => Nat.ofDigits 10 ds.reverse)

/-- Little-endian base-10 digits, computed with structural fuel so that the
kernel can evaluate it; `digitsLEAux_eq_digits` identifies it with
`Nat.digits 10`. -/
def digitsLEAux : Nat → Nat → List Nat
  | _, 0 => []
  | 0, _ + 1 => []
  | fuel + 1, n + 1 => (n + 1) % 10 :: digitsLEAux fuel ((n + 1) / 10)

def digitsLE (n : Nat) : List Nat :=
  digitsLEAux n n

/-- Big-endian digit characters of `n`, empty for `0`. -/
def natToCharsRaw (n : Nat) : List Char :=
  ((digitsLE n).map Nat.digitChar).reverse

/-- Big-endian digit characters of `n`, `"0"` for `0` (Python `str(n)`). -/
def natToChars (n : Nat) : List Char :=
  if n = 0 then ['0'] else natToCharsRaw n

/-- Left-pad a digit string with `'0'` to length `k`. -/
def padZeros (k : Nat) (ds : List Char) : List Char :=
  List.replicate (k - ds.length) '0' ++ ds

/-- Exact decimal rendering of `n / 10^k` with `k` digits after the
point. -/
def printDecimal (n k : Nat) : List Char :=
  natToChars (n / 10 ^ k) ++ '.' :: padZeros k (natToCharsRaw (n % 10 ^ k))

/-- Exact decimal rendering of a non-negative rational whose denominator
divides a power of ten: the model of Python `str(x)` for a float `x`
(`str` prints a decimal that `float` parses back to the same value). -/
def printNum (q : ℚ) : List Char :=
  printDecimal (⌊q * 10 ^ q.den⌋).toNat q.den

/-- Model of Python `float(s)` on the plain decimal forms the printer
emits: an integer part, a point and a fractional part (or no point). -/
def parseNum (l : List Char) : Option ℚ :=
  match splitOnChar '.' l with
  | [a] => (parseDigitsBE a).map (fun n => (n : ℚ))
  | [a, b] =>
    match parseDigitsBE a, parseDigitsBE b with
    | some ia, some fb => some ((ia : ℚ) + (fb : ℚ) / (10 : ℚ) ^ b.length)
    | _, _ => none
  | _ => none

/-- A rational with a finite decimal expansion (every IEEE float is one). -/
def IsDecimalRat (q : ℚ) : Prop :=
  ∃ a b : ℕ, q.den = 2 ^ a * 5 ^ b

/-! ## ParameterGrid (`Experiment.create_param_space`, lines 168-180, and
the reload in `create_json_configs` lines 200-202) -/

/-- `pairs = [(s, d) for s in inputs["Strength"] for d in inputs["Discount"]]`:
the strength-major Cartesian product (line 175). -/
def create_param_space (strengths discounts : List ℚ) : List (ℚ × ℚ) :=
  strengths.flatMap (fun s => discounts.map (fun d => (s, d)))

/-- One persisted line: `f"{pair[0]}, {pair[1]}\n"` (line 180). -/
def paramLine (p : ℚ × ℚ) : List Char :=
  printNum p.1 ++ ',' :: ' ' :: printNum p.2 ++ ['\n']

/-- The full parameter file written by `create_param_space` (lines 178-180). -/
def serializeGrid (grid : List (ℚ × ℚ)) : List Char :=
  (grid.map paramLine).flatten

/-- One line of the reload:
`(float(line.split(",")[0].strip()), float(line.split(",")[1].strip()))`
(line 202).  Indexing `[1]` into a split with fewer than two fields raises,
and extra fields beyond the second are ignored. -/
def parseParamLine (ln : List Char) : Option (ℚ × ℚ) :=
  match splitOnChar ',' ln with
  | f0 :: f1 :: _ =>
    match parseNum (pyStrip f0), parseNum (pyStrip f1) with
    | some s, some d => some (s, d)
    | _, _ => none
  | _ => none

/-- The reload of the parameter file (lines 200-202):
`parameters = [(float(...), float(...)) for line in f.readlines()]`. -/
def deserializeGrid (file : List Char) : Option (List (ℚ × ℚ)) :=
  optMapM parseParamLine (readlines file)

/-! ## ConfigDocument and per-pair derivation
(`Experiment.create_json_configs`, lines 182-232)

The JSON document has a `distributions` list (records with `name`,
`strength`, `discount`) and a `rules` list (records with `rule`,
`base_weight`, `zdists`).  Fields that may be absent from the base JSON and
are created by assignment are `Option`-valued.  The Python code performs the
per-pair rewrite *in place* on the single loaded `json_content`; we embed
one loop iteration as a function from document to document, so iteration
`i+1` operates on the result of iteration `i`. -/

structure DistRecord where
  name : String
  strength : Option ℚ
  discount : Option ℚ
deriving DecidableEq

structure RuleRecord where
  rule : String
  base_weight : Option ℚ
  zdists : Option (List String)
deriving DecidableEq

structure ConfigDocument where
  distributions : List DistRecord
  rules : List RuleRecord
deriving DecidableEq

/-- `self.num_pron = (0.6981516025097507, 0.2518229608275394)` (line 107):
subject and object pronoun proportions. -/
def num_pron : ℚ × ℚ :=
  (6981516025097507 / 10000000000000000, 2518229608275394 / 10000000000000000)

/-- The `zdists` lookup table of `create_json_configs` (lines 192-198);
`none` models a `KeyError` for an unmapped distribution. -/
def zdistsMap (dist : String) : Option (List String) :=
  if dist = "nn" then some ["nn"]
  else if dist = "nn.arg0" then some ["nn.$y1"]
  else if dist = "nn.arg1" then some ["nn.$y1"]
  else if dist = "nn.arg0.$y0" then some ["nn.$y1.$y2"]
  else if dist = "nn.arg1.$y0" then some ["nn.$y1.$y2"]
  else none

def entityRule : String := "$qentity.$y1.$y2 -> (ENTITY $qnn.$y1.$z1 $qentitymods)"

def subjNNRule : String := "$qnn.arg0.$y1 -> (inst nn.$y1)"

def subjPronRule : String := "$qnn.arg0.$y1 -> (inst pron.$z1)"

def objNNRule : String := "$qnn.arg1.$y1 -> (inst nn.$y1)"

def objPronRule : String := "$qnn.arg1.$y1 -> (inst pron.$z1)"

/-- Line 218-219: `if self.dist != 'vb' and rule['rule'] == "$qentity..."`
rewrite the rule's `zdists` to the distribution's substitute. -/
def setZ (dist : String) (r : RuleRecord) : Option RuleRecord :=
  if dist ≠ "vb" ∧ r.rule = entityRule then
    match zdistsMap dist with
    | some z => some { r with zdists := some z }
    | none => none
  else some r

/-- Lines 220-227: the four unconditional pronoun/noun weight rewrites.
The four `if` tests all inspect the unmodified `rule` string. -/
def setW (r : RuleRecord) : RuleRecord :=
  let r1 := if r.rule = subjNNRule then { r with base_weight := some (1 - num_pron.1) } else r
  let r2 := if r1.rule = subjPronRule then { r1 with base_weight := some num_pron.1 } else r1
  let r3 := if r2.rule = objNNRule then { r2 with base_weight := some (1 - num_pron.2) } else r2
  if r3.rule = objPronRule then { r3 with base_weight := some num_pron.2 } else r3

/-- The full per-rule rewrite of one loop iteration (lines 217-227). -/
def updateRule (dist : String) (r : RuleRecord) : Option RuleRecord :=
  (setZ dist r).map setW

/-- One iteration of the `for strength, discount in parameters` loop of
`create_json_configs` (lines 208-227): mutate the strength/discount of
every distribution record named in `child_dists` (lines 210-214), then
rewrite the rules (lines 216-227).  The returned document is the state of
`json_content` after the iteration — the code never copies the base. -/
def deriveStep (doc : ConfigDocument) (dist : String) (childDists : List String)
    (s d : ℚ) : Option ConfigDocument :=
  let dists := doc.distributions.map
    (fun r => if r.name ∈ childDists then { r with strength := some s, discount := some d } else r)
  match optMapM (updateRule dist) doc.rules with
  | some rules => some ⟨dists, rules⟩
  | none => none

/-! ## Initialization checks and stage gate
(`Config.__init__` / `Experiment.initialize`, lines 119-166) -/

/-- `Experiment.distributions` (lines 96-100). -/
def distributions : List String :=
  ["nn", "vb", "nn.arg0", "nn.arg1", "nn.arg0.$y0", "nn.arg1.$y0"]

def lvl1_dist : List String := ["vb", "nn"]

def lvl2_dist : List String := ["nn.arg0", "nn.arg1"]

def lvl3_dist : List String := ["nn.arg0.y0", "nn.arg1.y0"]

/-- `self.name = self.dist.replace("$", "")` (line 104): removing every
`'$'` character. -/
def expName (dist : String) : String :=
  String.mk (dist.data.filter (fun c => ! (c = '$')))

/-- `f"{self.data_path}/parameters/{dist}_params.txt"` (line 153). -/
def paramPathOf (dataPath dist : String) : String :=
  dataPath ++ "/parameters/" ++ dist ++ "_params.txt"

/-- The `paths` list created by `initialize` (lines 136-145). -/
def initPaths (dataPath name : String) : List String :=
  [dataPath,
   dataPath ++ "/parameters",
   dataPath ++ "/json_data/" ++ name,
   dataPath ++ "/sh_scripts",
   dataPath ++ "/peranto_output/" ++ name,
   dataPath ++ "/peranto_output/" ++ name ++ " modified",
   dataPath ++ "/mse_results",
   dataPath ++ "/plots"]

inductive InitError where
  | badDistribution
  | badKeys
  | missingBaseFile
  | tuneBefore (dist name : String)
deriving DecidableEq

/-- `Experiment.initialize` (lines 119-166).  `ispace` is the
`config.input_space` dict as an insertion-ordered association list, so
`ispace.map Prod.fst` is `list(self.input_space.keys())`; the values are
lists by type, which discharges the `isinstance(val, list)` check of lines
127-131.  `pathExists` is `os.path.exists` on the ambient file system.
Returns the list of directories created by the `os.makedirs` loop (lines
147-150) together with the check outcome; the prerequisite gate (lines
152-166) raises at the *first* missing parameter list it meets. -/
def initChecks (dist : String) (ispace : List (String × List ℚ))
    (dataPath baseFile : String) (pathExists : String → Bool) :
    List String × Except InitError Unit :=
  if ¬ dist ∈ distributions then ([], .error .badDistribution)
  else if ¬ ispace.map Prod.fst = ["Strength", "Discount"] then ([], .error .badKeys)
  else if ¬ pathExists baseFile then ([], .error .missingBaseFile)
  else
    let name := expName dist
    let created := (initPaths dataPath name).filter (fun p => ! pathExists p)
    let fs1 : String → Bool := fun p => pathExists p || decide (p ∈ created)
    if name ∈ lvl3_dist then
      match (lvl1_dist ++ lvl2_dist).find? (fun d => ! fs1 (paramPathOf dataPath d)) with
      | some d => (created, .error (.tuneBefore d name))
      | none => (created, .ok ())
    else if name ∈ lvl2_dist then
      match lvl1_dist.find? (fun d => ! fs1 (paramPathOf dataPath d)) with
      | some d => (created, .error (.tuneBefore d name))
      | none => (created, .ok ())
    else (created, .ok ())

/-! ## Observation extraction (`Experiment.get_peranto_data`, lines 275-322) -/

/-- A (subject, verb, object) triple. -/
def Triple : Type := String × String × String

instance : DecidableEq Triple := by unfold Triple; infer_instance

/-- The generated-output path for one pair (line 287):
`f"{self.output_path}/{self.name}/peranto_{self.name}_s{int(strength)}_d{int(100*discount)}.txt"`.
`int()` on the non-negative values in scope is the floor. -/
def intDisplay (q : ℚ) : String :=
  String.mk (natToChars (⌊q⌋).toNat)

def outFileFor (outputPath name : String) (s d : ℚ) : String :=
  outputPath ++ "/" ++ name ++ "/peranto_" ++ name ++ "_s" ++ intDisplay s ++
    "_d" ++ intDisplay (100 * d) ++ ".txt"

/-- Lines 292-296: `line = line.split(); subject = line[0]; verb = line[1];
obj = line[2]` — a line with fewer than three whitespace-separated tokens
raises an `IndexError` (caught by the bare `except`, which returns `None`). -/
def parseTripleLine (l : List Char) : Option Triple :=
  match pySplitWs l with
  | a :: b :: c :: _ => some (String.mk a, String.mk b, String.mk c)
  | _ => none

/-- `Experiment.get_peranto_data` (lines 275-322) without its on-disk side
channel (the `" modified"` files it also writes).  `parameters` is the
reloaded parameter list (lines 282-284), `files` is the file system
(`none` = `FileNotFoundError`), and `proj` abstracts
`PerantoTripleStore.get(self.dist)`, the external projection of the stored
triples for the tuned distribution.  Any missing file or malformed line
makes the whole call return `None` (lines 297-303), dropping the pairs
already processed. -/
def get_peranto_data {α : Type} (name outputPath : String)
    (proj : List Triple → List α) (parameters : List (ℚ × ℚ))
    (files : String → Option (List (List Char))) :
    Option (List ((ℚ × ℚ) × List α)) :=
  optMapM (fun p =>
    match files (outFileFor outputPath name p.1 p.2) with
    | none => none
    | some ls =>
      match optMapM parseTripleLine ls with
      | some ts => some (p, proj ts)
      | none => none) parameters

/-! ## Singleton-proportion curve
(`Experiment.get_singleton_prop.get_prop`, lines 336-354) -/

/-- The accumulation loop of `get_prop` (lines 346-353): `seen` is the set
of observations met so far, `count` the number of first occurrences, `idx`
the 0-based index; position `idx` of the curve is
`count' / (idx + 1)` after updating `count`. -/
def propAux {α : Type} [DecidableEq α] : List α → List α → Nat → Nat → List ℚ
  | [], _, _, _ => []
  | a :: rest, seen, count, idx =>
    if a ∈ seen then
      ((count : ℚ) / ((idx : ℚ) + 1)) :: propAux rest seen count (idx + 1)
    else
      (((count : ℚ) + 1) / ((idx : ℚ) + 1)) :: propAux rest (a :: seen) (count + 1) (idx + 1)

/-- `get_prop(lst)` (lines 336-354).  An observation is a tuple of tokens,
embedded as `List String`.  On `lst == []` the guard `len(lst[0]) == 1`
raises an `IndexError` (modelled as `none`).  When the first observation
has arity 1 the list is mapped to `[(x, x) for x in lst]`; otherwise each
element is unpacked as a 2-tuple (`ValueError`, i.e. `none`, if some
element is not one). -/
def get_prop (lst : List (List String)) : Option (List ℚ) :=
  match lst with
  | [] => none
  | x :: _ =>
    if x.length = 1 then
      some (propAux (lst.map (fun y => (y, y))) [] 0 0)
    else
      match optMapM (fun y =>
          match y with
          | [a, b] => some (a, b)
          | _ => none) lst with
      | some ps => some (propAux ps [] 0 0)
      | none => none

/-! ## Ranker (`Experiment.get_top_k`, lines 361-384) -/

/-- `np.mean((x - y) ** 2)` (lines 367-368) for 1-d arrays: defined when
the shapes broadcast (equal lengths, or one operand of length 1) and the
mean is over a non-empty array (`np.mean` of an empty array is `nan`). -/
def mseNp (x y : List ℚ) : Option ℚ :=
  if x.length = y.length then
    if x.length = 0 then none
    else some (((List.zipWith (fun a b => (a - b) ^ 2) x y).sum) / (x.length : ℚ))
  else
    match x, y with
    | [a], _ =>
      if y.length = 0 then none
      else some (((y.map (fun b => (a - b) ^ 2)).sum) / (y.length : ℚ))
    | _, [b] =>
      if x.length = 0 then none
      else some (((x.map (fun a => (a - b) ^ 2)).sum) / (x.length : ℚ))
    | _, _ => none

/-- `mse_results = {(str, dis) : mse(treebank_prop, sing_prop) ...}`
(lines 370-371), in the insertion order of `singleton_prop`, which is the
grid order. -/
def mseTable (sp : List ((ℚ × ℚ) × List ℚ)) (tb : List ℚ) :
    Option (List ((ℚ × ℚ) × ℚ)) :=
  optMapM (fun pc =>
    match mseNp tb pc.2 with
    | some m => some (pc.1, m)
    | none => none) sp

/-- Stable insertion of `a` after every element whose key is `≤ key a`. -/
def insertStable {α : Type} (key : α → ℚ) (a : α) : List α → List α
  | [] => [a]
  | b :: t => if key b ≤ key a then b :: insertStable key a t else a :: b :: t

/-- A stable ascending sort by `key`: the model of Python's stable
`sorted(..., key=lambda x: x[1])` (line 373). -/
def sortStable {α : Type} (key : α → ℚ) (l : List α) : List α :=
  l.foldl (fun acc a => insertStable key a acc) []

/-- `Experiment.get_top_k` (lines 361-384) without its report-file side
channel: sort the MSE table ascending (stable), take the first `k`, and
return the resulting association list (`{x[0] : x[1] for x in res}` keeps
this order; its keys are distinct because `mse_results` was a dict). -/
def get_top_k (sp : List ((ℚ × ℚ) × List ℚ)) (tb : List ℚ) (k : Nat) :
    Option (List ((ℚ × ℚ) × ℚ)) :=
  match mseTable sp tb with
  | some tbl => some ((sortStable (fun x => x.2) tbl).take k)
  | none => none

/-- Well-formedness of one pair's output file, used by the amended C1
statement: the file is present and every line has at least three
whitespace-separated tokens. -/
def okFile : Option (List (List Char)) → Bool
  | none => false
  | some ls => ls.all (fun l => decide (3 ≤ (pySplitWs l).length))

/-- File system for the one-missing-file scenario: every output file
exists (with content `"a b c"`) except the one for the pair `(50, 0.5)`. -/
def exFiles : String → Option (List (List Char)) := fun p =>
  if p = outFileFor "out" "nn" 50 (1/2) then none else some ["a b c".data]

/-! ## The fuel-based digit function agrees with `Nat.digits 10` -/

theorem digitsLEAux_eq_digits : ∀ fuel n : Nat, n ≤ fuel → digitsLEAux fuel n = Nat.digits 10 n := by
  intro fuel
  induction fuel with
  | zero =>
    intro n hn
    interval_cases n
    simp [digitsLEAux]
  | succ fuel ih =>
    intro n hn
    match n with
    | 0 => simp [digitsLEAux]
    | m + 1 =>
      rw [show digitsLEAux (fuel + 1) (m + 1) = (m + 1) % 10 :: digitsLEAux fuel ((m + 1) / 10) from rfl]
      rw [Nat.digits_def' (by norm_num : (1:ℕ) < 10) (Nat.succ_pos m)]
      rw [ih ((m + 1) / 10) (by
        have := Nat.div_lt_self (Nat.succ_pos m) (by norm_num : (1:ℕ) < 10)
        omega)]

theorem digitsLE_eq_digits (n : Nat) : digitsLE n = Nat.digits 10 n :=
  digitsLEAux_eq_digits n n (Nat.le_refl n)

/-! ## Helper lemmas about `optMapM` -/

theorem optMapM_some_of {α β : Type} (f : α → Option β) (g : α → β) :
    ∀ l : List α, (∀ x ∈ l, f x = some (g x)) → optMapM f l = some (l.map g)
  | [], _ => rfl
  | a :: l, h => by
    have ha := h a (List.mem_cons_self a l)
    have hl := optMapM_some_of f g l (fun x hx => h x (List.mem_cons_of_mem a hx))
    simp [optMapM, ha, hl]

theorem optMapM_none_of_mem {α β : Type} (f : α → Option β) {x : α} :
    ∀ {l : List α}, x ∈ l → f x = none → optMapM f l = none := by
  intro l hx hfx
  induction l with
  | nil => cases hx
  | cons a t ih =>
    rcases List.mem_cons.mp hx with rfl | hxt
    · simp [optMapM, hfx]
    · simp only [optMapM, ih hxt]
      cases f a <;> rfl

theorem optMapM_length {α β : Type} (f : α → Option β) :
    ∀ {l : List α} {l2 : List β}, optMapM f l = some l2 → l2.length = l.length := by
  intro l
  induction l with
  | nil => intro l2 h; simp [optMapM] at h; simp [← h]
  | cons a t ih =>
    intro l2 h
    simp only [optMapM] at h
    cases hfa : f a with
    | none => rw [hfa] at h; cases h
    | some b =>
      rw [hfa] at h
      cases hft : optMapM f t with
      | none => rw [hft] at h; cases h
      | some l3 =>
        rw [hft] at h
        cases h
        simp [ih hft]

theorem optMapM_mem {α β : Type} (f : α → Option β) :
    ∀ {l : List α} {l2 : List β} {b : β},
      optMapM f l = some l2 → b ∈ l2 → ∃ a ∈ l, f a = some b := by
  intro l
  induction l with
  | nil =>
    intro l2 b h hb
    simp [optMapM] at h
    subst h
    cases hb
  | cons a t ih =>
    intro l2 b h hb
    simp only [optMapM] at h
    cases hfa : f a with
    | none => rw [hfa] at h; cases h
    | some b0 =>
      rw [hfa] at h
      cases hft : optMapM f t with
      | none => rw [hft] at h; cases h
      | some l3 =>
        rw [hft] at h
        cases h
        rcases List.mem_cons.mp hb with rfl | hb3
        · exact ⟨a, List.mem_cons_self a t, hfa⟩
        · rcases ih hft hb3 with ⟨x, hx, hfx⟩
          exact ⟨x, List.mem_cons_of_mem a hx, hfx⟩

theorem optMapM_isSome {α β : Type} (f : α → Option β) :
    ∀ {l : List α}, (∀ x ∈ l, (f x).isSome) → ∃ l2, optMapM f l = some l2 := by
  intro l
  induction l with
  | nil => intro _; exact ⟨[], rfl⟩
  | cons a t ih =>
    intro h
    rcases Option.isSome_iff_exists.mp (h a (List.mem_cons_self a t)) with ⟨b, hb⟩
    rcases ih (fun x hx => h x (List.mem_cons_of_mem a hx)) with ⟨l3, hl3⟩
    exact ⟨b :: l3, by simp [optMapM, hb, hl3]⟩

/-! ## C5: the curve of the empty observation sequence -/

/-- C5 counterexample: the claim says `curve([]) == []`, but `get_prop`
evaluates `len(lst[0])` on its argument, which raises an `IndexError` on
the empty list: the computation is not defined there, so it does not
return the empty curve. -/
theorem C5_counterexample_empty_curve :
    get_prop [] ≠ some [] := by
  intro h
  cases h

/-- C5 amended: on the empty observation sequence the curve computation
fails (the `len(lst[0]) == 1` guard raises `IndexError`); a curve is only
ever produced for a non-empty sequence. -/
theorem C5_amended_empty_raises :
    get_prop [] = none := rfl

/-! ## C2: curve values and monotonicity -/

/-- C2 counterexample: for the two-observation sequence `[('a',), ('a',)]`
the curve is `[1, 1/2]` — its values do lie in `(0, 1]`, but the curve is
strictly *decreasing* from index 0 to index 1, refuting the claimed
monotone non-decrease. -/
theorem C2_counterexample_not_monotone :
    get_prop [["a"], ["a"]] = some [1, 1/2] ∧
      ¬ List.Pairwise (fun a b => a ≤ b) [(1 : ℚ), 1/2] := by
  constructor
  · norm_num [get_prop, propAux]
  · intro h
    have := (List.pairwise_cons.mp h).1 (1/2) (List.mem_singleton.mpr rfl)
    norm_num at this

/-- Every value the accumulation loop emits is in `(0, 1]`, provided the
running first-occurrence count is at most the running index and is zero
only while nothing has been seen. -/
theorem propAux_mem_unit {α : Type} [DecidableEq α] :
    ∀ (l : List α) (seen : List α) (count idx : Nat),
      count ≤ idx → (count = 0 → seen = []) →
      ∀ v ∈ propAux l seen count idx, 0 < v ∧ v ≤ 1 := by
  intro l
  induction l with
  | nil => intro seen count idx _ _ v hv; cases hv
  | cons a rest ih =>
    intro seen count idx hci hcs v hv
    by_cases hmem : a ∈ seen
    · simp only [propAux, if_pos hmem] at hv
      rcases List.mem_cons.mp hv with rfl | hv2
      · have hc1 : 1 ≤ count := by
          rcases Nat.eq_zero_or_pos count with hc0 | hpos
          · rw [hcs hc0] at hmem; cases hmem
          · exact hpos
        constructor
        · apply div_pos
          · exact_mod_cast Nat.lt_of_lt_of_le Nat.zero_lt_one hc1
          · positivity
        · rw [div_le_one (by positivity)]
          have : (count : ℚ) ≤ (idx : ℚ) := by exact_mod_cast hci
          linarith
      · exact ih seen count (idx + 1) (Nat.le_succ_of_le hci)
          hcs v (by exact_mod_cast hv2)
    · simp only [propAux, if_neg hmem] at hv
      rcases List.mem_cons.mp hv with rfl | hv2
      · constructor
        · apply div_pos
          · positivity
          · positivity
        · rw [div_le_one (by positivity)]
          have : (count : ℚ) ≤ (idx : ℚ) := by exact_mod_cast hci
          linarith
      · refine ih (a :: seen) (count + 1) (idx + 1) (Nat.succ_le_succ hci)
          (fun h0 => absurd h0 (Nat.succ_ne_zero count)) v ?_
        exact_mod_cast hv2

/-- The loop emits one value per observation. -/
theorem propAux_length {α : Type} [DecidableEq α] :
    ∀ (l : List α) (seen : List α) (count idx : Nat),
      (propAux l seen count idx).length = l.length := by
  intro l
  induction l with
  | nil => intro seen count idx; rfl
  | cons a rest ih =>
    intro seen count idx
    by_cases hmem : a ∈ seen <;>
      simp [propAux, hmem, ih]

/-- C2 amended: whenever `get_prop` produces a curve (in particular for
every non-empty well-formed observation sequence) the curve has one value
per observation and every value lies in the half-open interval `(0, 1]`.
The monotonicity direction claimed by the spec is dropped: the curve is
not monotonically non-decreasing (see the counterexample); only the
running first-occurrence *count* in its numerator is non-decreasing. -/
theorem C2_amended_curve_in_unit_interval :
    ∀ (lst : List (List String)) (c : List ℚ),
      get_prop lst = some c →
      c.length = lst.length ∧ ∀ v ∈ c, 0 < v ∧ v ≤ 1 := by
  intro lst c h
  match lst, h with
  | x :: rest, h =>
    by_cases hx : x.length = 1
    · simp only [get_prop, if_pos hx] at h
      cases h
      constructor
      · rw [propAux_length, List.length_map]
      · exact propAux_mem_unit _ [] 0 0 (Nat.le_refl 0) (fun _ => rfl)
    · simp only [get_prop, if_neg hx] at h
      cases hm : optMapM (fun y =>
          match y with
          | [a, b] => some (a, b)
          | _ => none) (x :: rest) with
      | none => rw [hm] at h; cases h
      | some ps =>
        rw [hm] at h
        cases h
        constructor
        · rw [propAux_length, optMapM_length _ hm]
        · exact propAux_mem_unit _ [] 0 0 (Nat.le_refl 0) (fun _ => rfl)

/-- C2 amended, witness: a concrete two-observation run. -/
theorem C2_amended_witness :
    ([1, 1] : List ℚ).length = ([["a"], ["b"]] : List (List String)).length ∧
      ∀ v ∈ ([1, 1] : List ℚ), 0 < v ∧ v ≤ 1 :=
  C2_amended_curve_in_unit_interval [["a"], ["b"]] [1, 1] (by
    norm_num [get_prop, propAux, String.ext_iff]
    decide)

/-! ## C3: mutation of the base document -/

/-- C3 counterexample: deriving the configuration for pair `(50, 0.5)` on a
base document whose `nn` record holds strength 0 leaves the in-memory
document (the state `json_content` after the loop iteration) different from
the base — `create_json_configs` never copies, so the base document is
mutated in place, refuting the claimed structural equality. -/
theorem C3_counterexample_base_mutated :
    deriveStep ⟨[⟨"nn", some 0, some 0⟩], []⟩ "nn" ["nn"] 50 (1/2) ≠
      some ⟨[⟨"nn", some 0, some 0⟩], []⟩ := by
  intro h
  norm_num [deriveStep, optMapM] at h

/-- Rule and weight fields pass through the `zdists` rewrite unchanged. -/
theorem setZ_fields {dist : String} {r r1 : RuleRecord} :
    setZ dist r = some r1 → r1.rule = r.rule ∧ r1.base_weight = r.base_weight := by
  intro h
  unfold setZ at h
  split at h
  · cases hz : zdistsMap dist with
    | none => rw [hz] at h; cases h
    | some z => rw [hz] at h; cases h; exact ⟨rfl, rfl⟩
  · cases h; exact ⟨rfl, rfl⟩

/-- The four weight rewrites: the rule string is preserved and each of the
four pronoun/noun rules receives its constant weight. -/
theorem setW_weights (r : RuleRecord) :
    (setW r).rule = r.rule ∧
      (r.rule = subjNNRule → (setW r).base_weight = some (1 - num_pron.1)) ∧
      (r.rule = subjPronRule → (setW r).base_weight = some num_pron.1) ∧
      (r.rule = objNNRule → (setW r).base_weight = some (1 - num_pron.2)) ∧
      (r.rule = objPronRule → (setW r).base_weight = some num_pron.2) := by
  have d12 : subjNNRule ≠ subjPronRule := by decide
  have d13 : subjNNRule ≠ objNNRule := by decide
  have d14 : subjNNRule ≠ objPronRule := by decide
  have d23 : subjPronRule ≠ objNNRule := by decide
  have d24 : subjPronRule ≠ objPronRule := by decide
  have d34 : objNNRule ≠ objPronRule := by decide
  by_cases h1 : r.rule = subjNNRule
  · simp [setW, h1, d12, d13, d14]
  · by_cases h2 : r.rule = subjPronRule
    · simp [setW, h1, h2, Ne.symm d12, d23, d24]
    · by_cases h3 : r.rule = objNNRule
      · simp [setW, h1, h2, h3, Ne.symm d13, Ne.symm d23, d34]
      · by_cases h4 : r.rule = objPronRule
        · simp [setW, h1, h2, h3, h4, Ne.symm d14, Ne.symm d24, Ne.symm d34]
        · simp [setW, h1, h2, h3, h4]

/-- C3 amended: `create_json_configs` performs no copy of the base
document: each per-pair derivation mutates the shared in-memory document,
setting the strength/discount of every distribution record named in
`child_dists` to the pair's values; whenever the base held different
values, the document after the call is no longer structurally equal to the
base. -/
theorem C3_amended_derive_mutates :
    ∀ (doc : ConfigDocument) (dist : String) (cd : List String) (s d : ℚ)
      (doc2 : ConfigDocument) (r : DistRecord),
      r ∈ doc.distributions → r.name ∈ cd → r.strength ≠ some s →
      deriveStep doc dist cd s d = some doc2 →
      doc2 ≠ doc ∧
        ∀ r2 ∈ doc2.distributions, r2.name ∈ cd →
          r2.strength = some s ∧ r2.discount = some d := by
  intro doc dist cd s d doc2 r hr hname hstr h
  unfold deriveStep at h
  cases hm : optMapM (updateRule dist) doc.rules with
  | none => rw [hm] at h; cases h
  | some rules =>
    rw [hm] at h
    simp only [Option.some.injEq] at h
    have hdists : doc2.distributions = doc.distributions.map
        (fun r0 => if r0.name ∈ cd
          then { r0 with strength := some s, discount := some d } else r0) := by
      rw [← h]
    constructor
    · intro heq
      rcases List.mem_iff_get.mp hr with ⟨i, hi⟩
      have hmap : doc.distributions.map
          (fun r0 => if r0.name ∈ cd
            then { r0 with strength := some s, discount := some d } else r0) =
          doc.distributions := by
        rw [← hdists, heq]
      have hlen : i.val < (doc.distributions.map
          (fun r0 => if r0.name ∈ cd
            then { r0 with strength := some s, discount := some d } else r0)).length := by
        rw [List.length_map]; exact i.isLt
      have hget := List.get_of_eq hmap ⟨i.val, hlen⟩
      simp only [List.get_eq_getElem, List.getElem_map] at hget
      simp only [List.get_eq_getElem] at hi
      rw [hi] at hget
      rw [if_pos hname] at hget
      have := congrArg DistRecord.strength hget
      simp only at this
      exact hstr this.symm

    · intro r2 hr2 hname2
      rw [hdists] at hr2
      rcases List.mem_map.mp hr2 with ⟨r0, _, hr0eq⟩
      by_cases hc : r0.name ∈ cd
      · rw [if_pos hc] at hr0eq
        rw [← hr0eq]
        exact ⟨rfl, rfl⟩
      · rw [if_neg hc] at hr0eq
        rw [← hr0eq] at hname2
        exact absurd hname2 hc

/-- C3 amended, witness. -/
theorem C3_amended_witness :
    (⟨"nn", (some 0 : Option ℚ), some 0⟩ : DistRecord) ∈
        [(⟨"nn", (some 0 : Option ℚ), some 0⟩ : DistRecord)] ∧
      (⟨[⟨"nn", some 50, some (1/2)⟩], []⟩ : ConfigDocument) ≠ ⟨[⟨"nn", some 0, some 0⟩], []⟩ :=
  ⟨List.mem_singleton.mpr rfl,
    (C3_amended_derive_mutates ⟨[⟨"nn", some 0, some 0⟩], []⟩ "nn" ["nn"] 50 (1/2)
      ⟨[⟨"nn", some 50, some (1/2)⟩], []⟩ ⟨"nn", some 0, some 0⟩
      (List.mem_singleton.mpr rfl) (List.mem_singleton.mpr rfl)
      (by norm_num) (by norm_num [deriveStep, optMapM])).1⟩

/-! ## C9: the four pronoun/noun weight rewrites are unconditional -/

/-- C9: for every base document, every tuned distribution (the verb
distribution `"vb"` included), every child-distribution set and every
parameter pair, the derived document gives the two subject-slot rules the
weights `1 - 0.6981516025097507` / `0.6981516025097507` and the two
object-slot rules the weights `1 - 0.2518229608275394` /
`0.2518229608275394` — the rewrite does not depend on the distribution. -/
theorem C9_pronoun_weights_unconditional :
    ∀ (doc : ConfigDocument) (dist : String) (cd : List String) (s d : ℚ)
      (doc2 : ConfigDocument),
      deriveStep doc dist cd s d = some doc2 →
      ∀ r ∈ doc2.rules,
        (r.rule = subjNNRule → r.base_weight = some (1 - num_pron.1)) ∧
        (r.rule = subjPronRule → r.base_weight = some num_pron.1) ∧
        (r.rule = objNNRule → r.base_weight = some (1 - num_pron.2)) ∧
        (r.rule = objPronRule → r.base_weight = some num_pron.2) := by
  intro doc dist cd s d doc2 h r hr
  unfold deriveStep at h
  cases hm : optMapM (updateRule dist) doc.rules with
  | none => rw [hm] at h; cases h
  | some rules =>
    rw [hm] at h
    simp only [Option.some.injEq] at h
    have hrules : doc2.rules = rules := by rw [← h]
    rw [hrules] at hr
    rcases optMapM_mem _ hm hr with ⟨r0, _, hup⟩
    unfold updateRule at hup
    cases hz : setZ dist r0 with
    | none => rw [hz] at hup; cases hup
    | some r1 =>
      rw [hz] at hup
      simp only [Option.map_some', Option.some.injEq] at hup
      have hw := setW_weights r1
      rw [hup] at hw
      refine ⟨?_, ?_, ?_, ?_⟩
      · intro hx; exact hw.2.1 (by rw [← hw.1]; exact hx)
      · intro hx; exact hw.2.2.1 (by rw [← hw.1]; exact hx)
      · intro hx; exact hw.2.2.2.1 (by rw [← hw.1]; exact hx)
      · intro hx; exact hw.2.2.2.2 (by rw [← hw.1]; exact hx)

/-- C9 witness: deriving with `dist = "vb"` (the verb distribution) still
rewrites a subject-slot rule's weight. -/
theorem C9_pronoun_weights_witness :
    deriveStep ⟨[], [⟨subjNNRule, none, none⟩]⟩ "vb" ["vb"] 0 0 =
        some ⟨[], [⟨subjNNRule, some (1 - num_pron.1), none⟩]⟩ ∧
      (⟨subjNNRule, some (1 - num_pron.1), none⟩ : RuleRecord) ∈
        ([⟨subjNNRule, some (1 - num_pron.1), none⟩] : List RuleRecord) ∧
      (⟨subjNNRule, some (1 - num_pron.1), none⟩ : RuleRecord).base_weight =
        some (1 - num_pron.1) :=
  ⟨by simp [deriveStep, optMapM, updateRule, setZ, setW, entityRule,
      subjNNRule, subjPronRule, objNNRule, objPronRule],
    List.mem_singleton.mpr rfl,
    (C9_pronoun_weights_unconditional ⟨[], [⟨subjNNRule, none, none⟩]⟩ "vb" ["vb"] 0 0
      ⟨[], [⟨subjNNRule, some (1 - num_pron.1), none⟩]⟩ (by
        simp [deriveStep, optMapM, updateRule, setZ, setW, entityRule,
          subjNNRule, subjPronRule, objNNRule, objPronRule])
      ⟨subjNNRule, some (1 - num_pron.1), none⟩ (List.mem_singleton.mpr rfl)).1 rfl⟩

/-! ## C10: the input-space key check -/

/-- C10: constructing a session (which runs `initialize`) rejects any
input space whose insertion-ordered key list is not exactly
`['Strength', 'Discount']` — a mapping with both axes present but in the
other order, or with an extra or missing key, fails the check of line 124
with the configuration error of line 125, before any directory is created
or any grid is generated. -/
theorem C10_input_space_keys_exact_order :
    ∀ (dist : String) (ispace : List (String × List ℚ)) (dataPath baseFile : String)
      (pathExists : String → Bool),
      dist ∈ distributions →
      ispace.map Prod.fst ≠ ["Strength", "Discount"] →
      initChecks dist ispace dataPath baseFile pathExists =
        ([], .error .badKeys) := by
  intro dist ispace dataPath baseFile pathExists hdist hkeys
  unfold initChecks
  rw [if_neg (by simpa using hdist), if_pos hkeys]

/-- C10 witness: both axes present, `Discount` inserted first:
rejected. -/
theorem C10_keys_witness :
    "nn" ∈ distributions ∧
      ([("Discount", ([] : List ℚ)), ("Strength", [])].map Prod.fst ≠
        ["Strength", "Discount"]) ∧
      initChecks "nn" [("Discount", []), ("Strength", [])] "data" "base.json"
          (fun _ => true) = ([], .error .badKeys) :=
  ⟨by decide, by decide,
    C10_input_space_keys_exact_order "nn" [("Discount", []), ("Strength", [])]
      "data" "base.json" (fun _ => true) (by decide) (by decide)⟩

/-! ## C4: the level-3 stage gate -/

/-- C4 counterexample: `initialize` for the level-3 distribution
`nn.arg0.$y0` with no parameter list present raises
`"Please tune vb before nn.arg0.y0"` — the failure names only the first
missing prerequisite (`vb`), not both missing level-1 distributions,
although `nn` has no parameter list either.  (The experiment directories
have moreover already been created when the gate fires.) -/
theorem C4_counterexample_only_first_missing_listed :
    (initChecks "nn.arg0.$y0" [("Strength", [0]), ("Discount", [0])] "data"
        "base.json" (fun p => p = "base.json")).2 =
      .error (.tuneBefore "vb" "nn.arg0.y0") ∧
    (fun p => decide (p = "base.json")) (paramPathOf "data" "nn") = false ∧
    InitError.tuneBefore "vb" "nn.arg0.y0" ≠ .tuneBefore "nn" "nn.arg0.y0" := by
  refine ⟨?_, by decide, by decide⟩
  unfold initChecks
  rw [if_neg (by decide), if_neg (by decide), if_neg (by decide)]
  simp only [lvl1_dist, lvl2_dist, List.cons_append, List.nil_append]
  rw [if_pos (by decide)]
  rw [List.find?_cons_of_pos _ (by decide)]
  rfl

/-- C4 amended: checking the gate for a level-3 distribution with the
level-1 parameter lists absent makes `initialize` raise naming only
`vb`, the *first* missing prerequisite in the fixed check order
`[vb, nn, nn.arg0, nn.arg1]`; the failure does not enumerate the other
missing distributions.  No parameter or configuration file is written:
everything `initialize` has created by then is a directory from the fixed
path list (and the gate's own parameter-file probes are unaffected by
those directories). -/
theorem C4_amended_gate_first_missing :
    ∀ (vals1 vals2 : List ℚ) (baseFile : String) (pathExists : String → Bool),
      pathExists baseFile = true →
      pathExists (paramPathOf "data" "vb") = false →
      (initChecks "nn.arg0.$y0" [("Strength", vals1), ("Discount", vals2)] "data"
          baseFile pathExists).2 = .error (.tuneBefore "vb" "nn.arg0.y0") ∧
        ∀ p ∈ (initChecks "nn.arg0.$y0" [("Strength", vals1), ("Discount", vals2)] "data"
          baseFile pathExists).1, p ∈ initPaths "data" "nn.arg0.y0" := by
  intro vals1 vals2 baseFile pathExists hbase hvb
  have hnotin : ¬ paramPathOf "data" "vb" ∈ initPaths "data" (expName "nn.arg0.$y0") := by
    decide
  have hpred : (fun d => ! (pathExists (paramPathOf "data" d) ||
      decide (paramPathOf "data" d ∈ (initPaths "data" (expName "nn.arg0.$y0")).filter
        (fun p => ! pathExists p)))) "vb" = true := by
    simp only [Bool.not_eq_true']
    rw [hvb]
    simp only [Bool.false_or, decide_eq_false_iff_not]
    intro hc
    exact hnotin (List.mem_of_mem_filter hc)
  constructor
  · unfold initChecks
    rw [if_neg (by decide), if_neg (by simp), if_neg (by simp [hbase])]
    simp only [lvl1_dist, lvl2_dist, List.cons_append, List.nil_append]
    rw [if_pos (by decide)]
    rw [List.find?_cons_of_pos (p := fun d => ! (pathExists (paramPathOf "data" d) ||
        decide (paramPathOf "data" d ∈ List.filter (fun x => ! pathExists x)
          (initPaths "data" (expName "nn.arg0.$y0"))))) _ hpred]
    rfl
  · intro p hp
    unfold initChecks at hp
    rw [if_neg (by decide), if_neg (by simp), if_neg (by simp [hbase])] at hp
    simp only [lvl1_dist, lvl2_dist, List.cons_append, List.nil_append] at hp
    rw [if_pos (by decide)] at hp
    rw [List.find?_cons_of_pos (p := fun d => ! (pathExists (paramPathOf "data" d) ||
        decide (paramPathOf "data" d ∈ List.filter (fun x => ! pathExists x)
          (initPaths "data" (expName "nn.arg0.$y0"))))) _ hpred] at hp
    simp only [] at hp
    exact List.mem_of_mem_filter hp

/-- C4 amended, witness. -/
theorem C4_amended_witness :
    ((fun p => p == "base.json") "base.json" = true) ∧
      ((fun p => p == "base.json") (paramPathOf "data" "vb") = false) ∧
      (initChecks "nn.arg0.$y0" [("Strength", [0]), ("Discount", [0])] "data"
          "base.json" (fun p => p == "base.json")).2 =
        .error (.tuneBefore "vb" "nn.arg0.y0") :=
  ⟨rfl, by decide,
    (C4_amended_gate_first_missing [0] [0] "base.json" (fun p => p == "base.json")
      rfl (by decide)).1⟩

/-! ## Character lemmas for the printed decimal forms -/

/-- `Nat.digitChar` of a digit below 10 is one of `'0'`-`'9'`. -/
theorem digitChar_range : ∀ d : Nat, d < 10 → '0' ≤ Nat.digitChar d ∧ Nat.digitChar d ≤ '9' := by
  intro d hd
  interval_cases d <;> exact ⟨by decide, by decide⟩

/-- Every character of `natToCharsRaw n` is a decimal digit. -/
theorem natToCharsRaw_digits (n : Nat) :
    ∀ c ∈ natToCharsRaw n, '0' ≤ c ∧ c ≤ '9' := by
  intro c hc
  unfold natToCharsRaw at hc
  rw [digitsLE_eq_digits, List.mem_reverse] at hc
  rcases List.mem_map.mp hc with ⟨d, hd, rfl⟩
  exact digitChar_range d (Nat.digits_lt_base (by norm_num) hd)

/-- Every character of `natToChars n` is a decimal digit. -/
theorem natToChars_digits (n : Nat) :
    ∀ c ∈ natToChars n, '0' ≤ c ∧ c ≤ '9' := by
  intro c hc
  unfold natToChars at hc
  split at hc
  · rcases List.mem_singleton.mp hc with rfl
    exact ⟨by decide, by decide⟩
  · exact natToCharsRaw_digits n c hc

/-- Every character of `printNum q` is a decimal digit or the point. -/
theorem printNum_chars (q : ℚ) :
    ∀ c ∈ printNum q, ('0' ≤ c ∧ c ≤ '9') ∨ c = '.' := by
  intro c hc
  unfold printNum printDecimal at hc
  rcases List.mem_append.mp hc with h1 | h2
  · exact Or.inl (natToChars_digits _ c h1)
  · rcases List.mem_cons.mp h2 with rfl | h3
    · exact Or.inr rfl
    · unfold padZeros at h3
      rcases List.mem_append.mp h3 with h4 | h5
      · rcases List.eq_of_mem_replicate h4 with rfl
        exact Or.inl ⟨by decide, by decide⟩
      · exact Or.inl (natToCharsRaw_digits _ c h5)

/-- A decimal digit or point is not a newline, comma or whitespace. -/
theorem printNum_char_not_special {q : ℚ} {c : Char} (hc : c ∈ printNum q) :
    c ≠ '\n' ∧ c ≠ ',' ∧ isPySpace c = false := by
  rcases printNum_chars q c hc with ⟨h1, h2⟩ | rfl
  · refine ⟨?_, ?_, ?_⟩
    · intro he; subst he; exact absurd h1 (by decide)
    · intro he; subst he; exact absurd h1 (by decide)
    · cases he : isPySpace c
      · rfl
      · exfalso
        unfold isPySpace at he
        rcases Bool.or_eq_true_iff.mp he with h | h
        · rcases Bool.or_eq_true_iff.mp h with h | h
          · rcases Bool.or_eq_true_iff.mp h with h | h <;>
              { have := of_decide_eq_true h; subst this; exact absurd h1 (by decide) }
          · have := of_decide_eq_true h; subst this; exact absurd h1 (by decide)
        · have := of_decide_eq_true h; subst this; exact absurd h1 (by decide)
  · exact ⟨by decide, by decide, by decide⟩

/-- `readlines` splits a newline-terminated chunk off the front. -/
theorem readlines_append (a rest : List Char) (ha : '\n' ∉ a) :
    readlines (a ++ '\n' :: rest) = (a ++ ['\n']) :: readlines rest := by
  induction a with
  | nil => simp [readlines]
  | cons c t ih =>
    have hc : ¬ c = '\n' := fun he => ha (he ▸ List.mem_cons_self c t)
    have ht : '\n' ∉ t := fun hm => ha (List.mem_cons_of_mem c hm)
    simp only [List.cons_append, readlines, if_neg hc, List.append_eq, ih ht]

/-- No newline occurs strictly inside a parameter line's body. -/
theorem paramLine_body_no_newline (p : ℚ × ℚ) :
    '\n' ∉ printNum p.1 ++ ',' :: ' ' :: printNum p.2 := by
  intro hm
  rcases List.mem_append.mp hm with h1 | h2
  · exact absurd rfl (printNum_char_not_special h1).1
  · rcases List.mem_cons.mp h2 with he | h3
    · cases he
    · rcases List.mem_cons.mp h3 with he | h4
      · cases he
      · exact absurd rfl (printNum_char_not_special h4).1

/-- Reading back the serialized grid yields exactly one line per pair, in
the grid's order. -/
theorem readlines_serializeGrid (grid : List (ℚ × ℚ)) :
    readlines (serializeGrid grid) = grid.map paramLine := by
  induction grid with
  | nil => rfl
  | cons p g ih =>
    have hbody := paramLine_body_no_newline p
    calc readlines (serializeGrid (p :: g))
        = readlines ((printNum p.1 ++ ',' :: ' ' :: printNum p.2) ++
            '\n' :: serializeGrid g) := by
          simp only [serializeGrid, List.map_cons, List.flatten_cons, paramLine,
            List.append_assoc, List.cons_append, List.nil_append]
      _ = ((printNum p.1 ++ ',' :: ' ' :: printNum p.2) ++ ['\n']) ::
            readlines (serializeGrid g) := readlines_append _ _ hbody
      _ = paramLine p :: readlines (serializeGrid g) := by
          simp [paramLine, List.append_assoc]
      _ = (p :: g).map paramLine := by rw [List.map_cons, ih]

/-! ## C7: grid size, strength-major order, persisted order -/

/-- C7: the grid has `|S| * |D|` pairs; the pair at flat index
`i * |D| + j` is `(S[i], D[j])` (strength is the outer loop, discount the
inner loop); and the persisted parameter file holds exactly one line per
pair in that same order. -/
theorem C7_grid_strength_major :
    ∀ (S D : List ℚ),
      (create_param_space S D).length = S.length * D.length ∧
      (∀ (i j : Nat), i < S.length → j < D.length →
        ∀ (hi : i < S.length) (hj : j < D.length),
        (create_param_space S D)[i * D.length + j]? = some (S[i], D[j])) ∧
      readlines (serializeGrid (create_param_space S D)) =
        (create_param_space S D).map paramLine := by
  intro S D
  refine ⟨?_, ?_, readlines_serializeGrid _⟩
  · induction S with
    | nil => simp [create_param_space]
    | cons s S2 ih =>
      simp only [create_param_space, List.flatMap_cons] at ih ⊢
      simp [List.length_append, ih, List.length_cons, Nat.succ_mul, Nat.add_comm]
  · induction S with
    | nil => intro i j h1 _ _ _; exact absurd h1 (Nat.not_lt_zero i)
    | cons s S2 ih =>
      intro i j h1 h2 hi hj
      simp only [create_param_space, List.flatMap_cons]
      cases i with
      | zero =>
        rw [Nat.zero_mul, Nat.zero_add]
        rw [List.getElem?_append_left (by rw [List.length_map]; exact h2)]
        simp [List.getElem?_map, List.getElem?_eq_getElem h2]
      | succ i2 =>
        have hlen : (D.map (fun d => (s, d))).length ≤ (i2 + 1) * D.length + j := by
          rw [List.length_map, Nat.succ_mul]
          omega
        rw [List.getElem?_append_right hlen]
        have harith : (i2 + 1) * D.length + j - (D.map (fun d => (s, d))).length =
            i2 * D.length + j := by
          rw [List.length_map, Nat.succ_mul]
          omega
        rw [harith]
        have h1b : i2 < S2.length := Nat.lt_of_succ_lt_succ h1
        have := ih i2 j h1b h2 h1b hj
        simp only [create_param_space] at this
        rw [this]
        rfl

/-- C7 witness: the 2x2 grid over strengths `[0, 50]` and discounts
`[0, 1/2]`: four pairs, with `(50, 0)` at flat index `1 * 2 + 0`. -/
theorem C7_grid_witness :
    (1 < ([0, 50] : List ℚ).length ∧ 0 < ([0, 1/2] : List ℚ).length) ∧
      (create_param_space [0, 50] [0, 1/2])[1 * ([0, (1:ℚ)/2] : List ℚ).length + 0]? =
        some (([0, (50:ℚ)] : List ℚ)[1], ([0, (1:ℚ)/2] : List ℚ)[0]) :=
  ⟨⟨by decide, by decide⟩,
    (C7_grid_strength_major [0, 50] [0, 1/2]).2.1 1 0 (by decide) (by decide)
      (by decide) (by decide)⟩

/-! ## C1: evaluation policy for missing output files -/

/-- C1 counterexample: four parameter pairs, the output files of the first
three present and well-formed, the fourth (`(50, 0.5)`) absent.  The claim
predicts that evaluation completes over the three remaining pairs; in fact
`get_peranto_data` returns `None` (the `except FileNotFoundError: return
None` of lines 297-299), so no data — and hence no ranking — is produced
at all, even though only one of the four files is missing. -/
theorem C1_counterexample_first_missing_aborts :
    get_peranto_data "nn" "out" (fun ts => ts)
        [(0, 0), (0, 1/2), (50, 0), (50, 1/2)] exFiles = none ∧
      exFiles (outFileFor "out" "nn" 50 (1/2)) = none ∧
      okFile (exFiles (outFileFor "out" "nn" 0 0)) = true ∧
      okFile (exFiles (outFileFor "out" "nn" 0 (1/2))) = true ∧
      okFile (exFiles (outFileFor "out" "nn" 50 0)) = true := by
  have hmiss : exFiles (outFileFor "out" "nn" 50 (1/2)) = none := by
    unfold exFiles
    rw [if_pos rfl]
  refine ⟨?_, hmiss, ?_, ?_, ?_⟩
  · unfold get_peranto_data
    refine optMapM_none_of_mem _ (show ((50:ℚ), (1:ℚ)/2) ∈ _ from by simp) ?_
    simp only [hmiss]
  · have hne : outFileFor "out" "nn" (0:ℚ) 0 ≠ outFileFor "out" "nn" 50 (1/2) := by
      unfold outFileFor intDisplay
      norm_num
      decide
    unfold exFiles
    rw [if_neg hne]
    rfl
  · have hne : outFileFor "out" "nn" (0:ℚ) (1/2) ≠ outFileFor "out" "nn" 50 (1/2) := by
      unfold outFileFor intDisplay
      norm_num
      decide
    unfold exFiles
    rw [if_neg hne]
    rfl
  · have hne : outFileFor "out" "nn" (50:ℚ) 0 ≠ outFileFor "out" "nn" 50 (1/2) := by
      unfold outFileFor intDisplay
      norm_num
      decide
    unfold exFiles
    rw [if_neg hne]
    rfl

/-- When every pair's file is present and well-formed, extraction succeeds
and yields one entry per pair, in grid order. -/
theorem get_peranto_data_total {α : Type} (name out : String)
    (proj : List Triple → List α) :
    ∀ (params : List (ℚ × ℚ)) (files : String → Option (List (List Char))),
      (∀ p ∈ params, okFile (files (outFileFor out name p.1 p.2)) = true) →
      ∃ res, get_peranto_data name out proj params files = some res ∧
        res.map Prod.fst = params := by
  intro params files h
  induction params with
  | nil => exact ⟨[], rfl, rfl⟩
  | cons p t ih =>
    have hp := h p (List.mem_cons_self p t)
    cases hf : files (outFileFor out name p.1 p.2) with
    | none => rw [hf] at hp; cases hp
    | some ls =>
      rw [hf] at hp
      have hall : ∀ l ∈ ls, decide (3 ≤ (pySplitWs l).length) = true :=
        List.all_eq_true.mp hp
      have hparse : ∀ l ∈ ls, (parseTripleLine l).isSome := by
        intro l hl
        have h3 : 3 ≤ (pySplitWs l).length := of_decide_eq_true (hall l hl)
        unfold parseTripleLine
        cases hys : pySplitWs l with
        | nil => rw [hys] at h3; simp at h3
        | cons a t1 =>
          cases t1 with
          | nil => rw [hys] at h3; simp at h3
          | cons b t2 =>
            cases t2 with
            | nil => rw [hys] at h3; simp at h3
            | cons c t3 => rfl
      rcases optMapM_isSome _ hparse with ⟨ts, hts⟩
      rcases ih (fun x hx => h x (List.mem_cons_of_mem p hx)) with ⟨res2, hres2, hmap2⟩
      refine ⟨(p, proj ts) :: res2, ?_, ?_⟩
      · unfold get_peranto_data at hres2 ⊢
        simp only [optMapM, hf, hts, hres2]
      · simp [hmap2]

/-- C1 amended: `get_peranto_data` is all-or-nothing.  If every pair's
output file is present and each line has three tokens, evaluation yields
one result per pair (in grid order); but if the output file of *any* pair
is absent, the whole call returns `None` — the missing pair is not
dropped, and no partial result (hence no ranking) is produced even though
the other pairs' files exist. -/
theorem C1_amended_all_or_nothing {α : Type} (name out : String)
    (proj : List Triple → List α) (params : List (ℚ × ℚ))
    (files : String → Option (List (List Char))) :
    ((∀ p ∈ params, okFile (files (outFileFor out name p.1 p.2)) = true) →
      ∃ res, get_peranto_data name out proj params files = some res ∧
        res.map Prod.fst = params) ∧
    ((∃ p ∈ params, files (outFileFor out name p.1 p.2) = none) →
      get_peranto_data name out proj params files = none) := by
  constructor
  · exact get_peranto_data_total name out proj params files
  · rintro ⟨p, hp, hnone⟩
    unfold get_peranto_data
    refine optMapM_none_of_mem _ hp ?_
    simp only [hnone]

/-- C1 amended, witness: a one-pair run with the file present succeeds;
a one-pair run with the file absent returns `None`. -/
theorem C1_amended_witness :
    (∃ res, get_peranto_data "nn" "out" (fun ts => ts) [((0:ℚ), (0:ℚ))]
        (fun _ => some ["a b c".data]) = some res ∧
        res.map Prod.fst = [((0:ℚ), (0:ℚ))]) ∧
      get_peranto_data "nn" "out" (fun ts => ts) [((0:ℚ), (0:ℚ))]
        (fun _ => none) = none :=
  ⟨(C1_amended_all_or_nothing "nn" "out" (fun ts => ts) [((0:ℚ), (0:ℚ))]
      (fun _ => some ["a b c".data])).1 (fun _ _ => rfl),
    (C1_amended_all_or_nothing "nn" "out" (fun ts => ts) [((0:ℚ), (0:ℚ))]
      (fun _ => none)).2 ⟨(0, 0), List.mem_singleton.mpr rfl, rfl⟩⟩

/-! ## Stable sort lemmas (for C6) -/

theorem mem_insertStable {α : Type} (key : α → ℚ) (a x : α) :
    ∀ l, x ∈ insertStable key a l ↔ x = a ∨ x ∈ l := by
  intro l
  induction l with
  | nil => simp [insertStable]
  | cons b t ih =>
    unfold insertStable
    by_cases h : key b ≤ key a
    · rw [if_pos h]
      simp [ih]
      tauto
    · rw [if_neg h]
      simp

theorem length_insertStable {α : Type} (key : α → ℚ) (a : α) :
    ∀ l, (insertStable key a l).length = l.length + 1 := by
  intro l
  induction l with
  | nil => rfl
  | cons b t ih =>
    unfold insertStable
    by_cases h : key b ≤ key a
    · rw [if_pos h]
      simp [ih]
    · rw [if_neg h]
      simp

theorem pairwise_insertStable {α : Type} (key : α → ℚ) (a : α) :
    ∀ l, List.Pairwise (fun x y => key x ≤ key y) l →
      List.Pairwise (fun x y => key x ≤ key y) (insertStable key a l) := by
  intro l
  induction l with
  | nil => intro _; exact List.pairwise_singleton _ a
  | cons b t ih =>
    intro hp
    rcases List.pairwise_cons.mp hp with ⟨hb, ht⟩
    unfold insertStable
    by_cases h : key b ≤ key a
    · rw [if_pos h]
      refine List.pairwise_cons.mpr ⟨?_, ih ht⟩
      intro x hx
      rcases (mem_insertStable key a x t).mp hx with rfl | hxt
      · exact h
      · exact hb x hxt
    · rw [if_neg h]
      refine List.pairwise_cons.mpr ⟨?_, hp⟩
      intro x hx
      rcases List.mem_cons.mp hx with rfl | hxt
      · exact le_of_lt (lt_of_not_le h)
      · exact le_trans (le_of_lt (lt_of_not_le h)) (hb x hxt)

theorem filter_insertStable {α : Type} (key : α → ℚ) (a : α) (c : ℚ) :
    ∀ l, List.Pairwise (fun x y => key x ≤ key y) l →
      (insertStable key a l).filter (fun x => decide (key x = c)) =
        l.filter (fun x => decide (key x = c)) ++
          (if key a = c then [a] else []) := by
  intro l
  induction l with
  | nil =>
    intro _
    by_cases h : key a = c <;> simp [insertStable, h]
  | cons b t ih =>
    intro hp
    rcases List.pairwise_cons.mp hp with ⟨hb, ht⟩
    unfold insertStable
    by_cases h : key b ≤ key a
    · rw [if_pos h]
      by_cases hbc : key b = c <;>
        simp [List.filter_cons, hbc, ih ht, List.append_assoc]
    · rw [if_neg h]
      by_cases hac : key a = c
      · have hnone : ∀ x ∈ b :: t, ¬ key x = c := by
          intro x hx
          rcases List.mem_cons.mp hx with rfl | hxt
          · intro he
            exact absurd (he ▸ lt_of_not_le h) (by rw [hac]; exact lt_irrefl c)
          · intro he
            have hax : key a < key x := lt_of_lt_of_le (lt_of_not_le h) (hb x hxt)
            exact absurd (he ▸ hax) (by rw [hac]; exact lt_irrefl c)
        have hfe : (b :: t).filter (fun x => decide (key x = c)) = [] := by
          rw [List.filter_eq_nil_iff]
          intro x hx
          simpa using hnone x hx
        simp [List.filter_cons, hac, hfe, decide_eq_true_eq]
      · simp [List.filter_cons, hac]

theorem sortStable_core {α : Type} (key : α → ℚ) :
    ∀ (l acc : List α), List.Pairwise (fun x y => key x ≤ key y) acc →
      List.Pairwise (fun x y => key x ≤ key y)
        (List.foldl (fun acc2 a => insertStable key a acc2) acc l) ∧
      (List.foldl (fun acc2 a => insertStable key a acc2) acc l).length =
        acc.length + l.length ∧
      ∀ c : ℚ,
        (List.foldl (fun acc2 a => insertStable key a acc2) acc l).filter
            (fun x => decide (key x = c)) =
          acc.filter (fun x => decide (key x = c)) ++
            l.filter (fun x => decide (key x = c)) := by
  intro l
  induction l with
  | nil => intro acc hacc; exact ⟨hacc, by simp, by simp⟩
  | cons a t ih =>
    intro acc hacc
    have hstep := ih (insertStable key a acc) (pairwise_insertStable key a acc hacc)
    refine ⟨hstep.1, ?_, ?_⟩
    · rw [List.foldl_cons, hstep.2.1, length_insertStable]
      simp only [List.length_cons]
      omega
    · intro c
      rw [List.foldl_cons, hstep.2.2 c, filter_insertStable key a c acc hacc]
      by_cases hac : key a = c <;>
        simp [List.filter_cons, hac, List.append_assoc]

/-! ## C6: top-k ranking -/

/-- C6: for curves of a common positive length, `get_top_k` succeeds and
returns exactly `min k |curves|` results, sorted by non-decreasing MSE,
and for every distance value the results carrying it form a prefix of the
MSE table's entries with that value in original grid (insertion) order.
`k` is a count (the CLI flag and the default `k=10` are non-negative). -/
theorem C6_rank_top_k :
    ∀ (sp : List ((ℚ × ℚ) × List ℚ)) (tb : List ℚ) (k : Nat),
      tb ≠ [] →
      (∀ pc ∈ sp, (pc.2).length = tb.length) →
      ∃ (tbl res : List ((ℚ × ℚ) × ℚ)),
        mseTable sp tb = some tbl ∧
        get_top_k sp tb k = some res ∧
        tbl.length = sp.length ∧
        tbl.map Prod.fst = sp.map Prod.fst ∧
        res.length = min k sp.length ∧
        List.Pairwise (fun a b => a.2 ≤ b.2) res ∧
        ∀ c : ℚ, ∃ t2, tbl.filter (fun x => decide (x.2 = c)) =
          res.filter (fun x => decide (x.2 = c)) ++ t2 := by
  intro sp tb k htb hlen
  have hmse : ∀ pc ∈ sp, mseNp tb pc.2 =
      some ((List.zipWith (fun a b => (a - b) ^ 2) tb pc.2).sum / (tb.length : ℚ)) := by
    intro pc hpc
    unfold mseNp
    rw [if_pos (hlen pc hpc).symm,
      if_neg (fun h0 => htb (List.length_eq_zero.mp h0))]
  have htbl : mseTable sp tb = some (sp.map (fun pc =>
      (pc.1, (List.zipWith (fun a b => (a - b) ^ 2) tb pc.2).sum / (tb.length : ℚ)))) := by
    unfold mseTable
    refine optMapM_some_of _ _ sp ?_
    intro pc hpc
    rw [hmse pc hpc]
  set tbl := sp.map (fun pc =>
    (pc.1, (List.zipWith (fun a b => (a - b) ^ 2) tb pc.2).sum / (tb.length : ℚ))) with htbldef
  have hcore := sortStable_core (fun x : (ℚ × ℚ) × ℚ => x.2) tbl [] (List.Pairwise.nil)
  refine ⟨tbl, (sortStable (fun x => x.2) tbl).take k, htbl, ?_, ?_, ?_, ?_, ?_, ?_⟩
  · unfold get_top_k
    rw [htbl]
  · simp [htbldef]
  · simp [htbldef]
  · unfold sortStable at hcore ⊢
    rw [List.length_take, hcore.2.1]
    simp [htbldef]
  · refine List.Pairwise.sublist (List.take_sublist k _) ?_
    exact hcore.1
  · intro c
    unfold sortStable
    have hfull := hcore.2.2 c
    simp only [List.filter_nil, List.nil_append] at hfull
    refine ⟨((List.foldl (fun acc2 a => insertStable (fun x => x.2) a acc2) [] tbl).drop k).filter
      (fun x => decide (x.2 = c)), ?_⟩
    rw [← hfull]
    rw [← List.filter_append]
    rw [List.take_append_drop]

/-- C6 witness: two curves identical to the reference (distance 0 each),
`k = 1`: one result, and the tied results appear in grid order. -/
theorem C6_rank_top_k_witness :
    (([0] : List ℚ) ≠ []) ∧
      ∃ (tbl res : List ((ℚ × ℚ) × ℚ)),
        mseTable [(((0:ℚ), (0:ℚ)), [0]), (((0:ℚ), (1:ℚ)/2), [0])] [0] = some tbl ∧
        get_top_k [(((0:ℚ), (0:ℚ)), [0]), (((0:ℚ), (1:ℚ)/2), [0])] [0] 1 = some res ∧
        tbl.length = 2 ∧
        tbl.map Prod.fst = [((0:ℚ), (0:ℚ)), ((0:ℚ), (1:ℚ)/2)] ∧
        res.length = min 1 2 ∧
        List.Pairwise (fun a b => a.2 ≤ b.2) res ∧
        ∀ c : ℚ, ∃ t2, tbl.filter (fun x => decide (x.2 = c)) =
          res.filter (fun x => decide (x.2 = c)) ++ t2 :=
  ⟨by simp,
    C6_rank_top_k [(((0:ℚ), (0:ℚ)), [0]), (((0:ℚ), (1:ℚ)/2), [0])] [0] 1
      (by simp) (by intro pc hpc; rcases List.mem_cons.mp hpc with rfl | h2
                    · rfl
                    · rcases List.mem_singleton.mp h2 with rfl; rfl)⟩

/-! ## C8: digit-level parsing lemmas -/

theorem digitVal_digitChar : ∀ d : Nat, d < 10 → digitVal (Nat.digitChar d) = some d := by
  intro d hd
  interval_cases d <;> decide

theorem optMapM_append {α β : Type} (f : α → Option β) :
    ∀ {l1 l2 : List α} {m1 m2 : List β},
      optMapM f l1 = some m1 → optMapM f l2 = some m2 →
      optMapM f (l1 ++ l2) = some (m1 ++ m2) := by
  intro l1
  induction l1 with
  | nil =>
    intro l2 m1 m2 h1 h2
    simp only [optMapM] at h1
    cases h1
    simpa using h2
  | cons a t ih =>
    intro l2 m1 m2 h1 h2
    simp only [optMapM] at h1
    cases hfa : f a with
    | none => rw [hfa] at h1; cases h1
    | some b =>
      rw [hfa] at h1
      cases hft : optMapM f t with
      | none => rw [hft] at h1; cases h1
      | some mt =>
        rw [hft] at h1
        cases h1
        simp only [List.cons_append, optMapM, List.append_eq, hfa, ih hft h2]

theorem optMapM_digitVal_digitChar :
    ∀ ds : List Nat, (∀ d ∈ ds, d < 10) →
      optMapM digitVal (ds.map Nat.digitChar) = some ds := by
  intro ds
  induction ds with
  | nil => intro _; rfl
  | cons d t ih =>
    intro h
    simp only [List.map_cons, optMapM,
      digitVal_digitChar d (h d (List.mem_cons_self d t)),
      ih (fun x hx => h x (List.mem_cons_of_mem d hx))]

theorem optMapM_digitVal_replicate :
    ∀ j : Nat, optMapM digitVal (List.replicate j '0') = some (List.replicate j 0) := by
  intro j
  induction j with
  | zero => rfl
  | succ j ih =>
    simp only [List.replicate_succ, optMapM, ih]
    rw [show digitVal '0' = some 0 from by decide]

theorem ofDigits_replicate_zero :
    ∀ j : Nat, Nat.ofDigits 10 (List.replicate j 0) = 0 := by
  intro j
  induction j with
  | zero => rfl
  | succ j ih => simp [List.replicate_succ, Nat.ofDigits_cons, ih]

/-- Length of the raw digit string. -/
theorem natToCharsRaw_length (r : Nat) :
    (natToCharsRaw r).length = (Nat.digits 10 r).length := by
  unfold natToCharsRaw
  rw [digitsLE_eq_digits]
  simp

theorem parseDigitsBE_padded (j r : Nat)
    (hne : j + (natToCharsRaw r).length ≠ 0) :
    parseDigitsBE (List.replicate j '0' ++ natToCharsRaw r) = some r := by
  have hraw : natToCharsRaw r = ((Nat.digits 10 r).reverse).map Nat.digitChar := by
    unfold natToCharsRaw
    rw [digitsLE_eq_digits, List.map_reverse]
  have hdig : optMapM digitVal (natToCharsRaw r) = some ((Nat.digits 10 r).reverse) := by
    rw [hraw]
    exact optMapM_digitVal_digitChar _
      (fun d hd => Nat.digits_lt_base (by norm_num) (List.mem_reverse.mp hd))
  have hlist : optMapM digitVal (List.replicate j '0' ++ natToCharsRaw r) =
      some (List.replicate j 0 ++ (Nat.digits 10 r).reverse) :=
    optMapM_append _ (optMapM_digitVal_replicate j) hdig
  unfold parseDigitsBE
  rw [if_neg (by
    intro h0
    apply hne
    have := congrArg List.length h0
    simpa [List.length_append] using this)]
  rw [hlist]
  simp only [Option.map_some']
  congr 1
  rw [List.reverse_append, List.reverse_reverse, List.reverse_replicate]
  rw [Nat.ofDigits_append, Nat.ofDigits_digits, ofDigits_replicate_zero]
  simp

theorem parseDigitsBE_natToChars (n : Nat) :
    parseDigitsBE (natToChars n) = some n := by
  by_cases h : n = 0
  · subst h
    decide
  · unfold natToChars
    rw [if_neg h]
    have := parseDigitsBE_padded 0 n (by
      rw [natToCharsRaw_length]
      simp [Nat.digits_ne_nil_iff_ne_zero.mpr h, List.length_eq_zero])
    simpa using this

/-! ## C8: split and strip lemmas -/

theorem splitOnChar_no_sep (sep : Char) :
    ∀ l : List Char, sep ∉ l → splitOnChar sep l = [l] := by
  intro l
  induction l with
  | nil => intro _; rfl
  | cons c t ih =>
    intro h
    have hc : ¬ c = sep := fun he => h (he ▸ List.mem_cons_self c t)
    have ht : sep ∉ t := fun hm => h (List.mem_cons_of_mem c hm)
    simp only [splitOnChar, if_neg hc, ih ht]

theorem splitOnChar_append (sep : Char) (a b : List Char) (ha : sep ∉ a) :
    splitOnChar sep (a ++ sep :: b) = a :: splitOnChar sep b := by
  induction a with
  | nil => simp [splitOnChar]
  | cons c t ih =>
    have hc : ¬ c = sep := fun he => ha (he ▸ List.mem_cons_self c t)
    have ht : sep ∉ t := fun hm => ha (List.mem_cons_of_mem c hm)
    simp only [List.cons_append, splitOnChar, if_neg hc, List.append_eq, ih ht]

theorem dropWhile_all_false {p : Char → Bool} :
    ∀ l : List Char, (∀ c ∈ l, p c = false) → l.dropWhile p = l := by
  intro l h
  cases l with
  | nil => rfl
  | cons c t =>
    exact List.dropWhile_cons_of_neg (by
      rw [h c (List.mem_cons_self c t)]
      exact Bool.false_ne_true)

theorem pyStrip_no_space (l : List Char) (h : ∀ c ∈ l, isPySpace c = false) :
    pyStrip l = l := by
  unfold pyStrip
  rw [dropWhile_all_false l h,
    dropWhile_all_false _ (fun c hc => h c (List.mem_reverse.mp hc)),
    List.reverse_reverse]

theorem pyStrip_strip_one (xs : List Char) (hne : xs ≠ [])
    (h : ∀ c ∈ xs, isPySpace c = false) :
    pyStrip (' ' :: (xs ++ ['\n'])) = xs := by
  unfold pyStrip
  rw [List.dropWhile_cons_of_pos (by decide)]
  cases xs with
  | nil => exact absurd rfl hne
  | cons y t =>
    rw [show List.dropWhile isPySpace (y :: t ++ ['\n']) = y :: t ++ ['\n'] from
      List.dropWhile_cons_of_neg (by
        rw [h y (List.mem_cons_self y t)]
        exact Bool.false_ne_true)]
    rw [show ((y :: t) ++ ['\n']).reverse = '\n' :: (y :: t).reverse by
      rw [List.reverse_append]
      rfl]
    rw [List.dropWhile_cons_of_pos (by decide)]
    cases hrev : (y :: t).reverse with
    | nil => exact absurd (List.reverse_eq_nil_iff.mp hrev) (List.cons_ne_nil y t)
    | cons z w =>
      have hz : z ∈ y :: t := by
        rw [← List.mem_reverse, hrev]
        exact List.mem_cons_self z w
      rw [show List.dropWhile isPySpace (z :: w) = z :: w from
        List.dropWhile_cons_of_neg (by
          rw [h z hz]
          exact Bool.false_ne_true)]
      rw [← hrev, List.reverse_reverse]

/-! ## C8: the decimal printer round-trips through the parser -/

theorem digits_len_le_of_lt_pow {r k : ℕ} (h : r < 10 ^ k) :
    (Nat.digits 10 r).length ≤ k := by
  rcases Nat.eq_zero_or_pos r with rfl | hr
  · simp
  · by_contra hlen
    push_neg at hlen
    have h1 : (10:ℕ) ^ (k + 1) ≤ 10 ^ (Nat.digits 10 r).length :=
      Nat.pow_le_pow_right (by norm_num) hlen
    have h2 := Nat.base_pow_length_digits_le 10 r (by norm_num)
      (Nat.pos_iff_ne_zero.mp hr)
    have h3 : (10:ℕ) ^ (k + 1) ≤ 10 * r := le_trans h1 h2
    rw [pow_succ, mul_comm] at h3
    have h4 : (10:ℕ) ^ k ≤ r := Nat.le_of_mul_le_mul_left h3 (by norm_num)
    omega

theorem natToChars_no_dot (n : Nat) : '.' ∉ natToChars n := by
  intro hm
  rcases natToChars_digits n '.' hm with ⟨h1, _⟩
  exact absurd h1 (by decide)

theorem natToCharsRaw_no_dot (n : Nat) : '.' ∉ natToCharsRaw n := by
  intro hm
  rcases natToCharsRaw_digits n '.' hm with ⟨h1, _⟩
  exact absurd h1 (by decide)

theorem parseNum_printDecimal (n k : Nat) (hk : 1 ≤ k) :
    parseNum (printDecimal n k) = some ((n : ℚ) / 10 ^ k) := by
  have hmod : n % 10 ^ k < 10 ^ k := Nat.mod_lt n (by positivity)
  have hlen : (natToCharsRaw (n % 10 ^ k)).length ≤ k := by
    rw [natToCharsRaw_length]
    exact digits_len_le_of_lt_pow hmod
  have hdot_a : '.' ∉ natToChars (n / 10 ^ k) := natToChars_no_dot _
  have hdot_b : '.' ∉ padZeros k (natToCharsRaw (n % 10 ^ k)) := by
    intro hm
    unfold padZeros at hm
    rcases List.mem_append.mp hm with h1 | h2
    · exact absurd (List.eq_of_mem_replicate h1) (by decide)
    · exact natToCharsRaw_no_dot _ h2
  have hblen : (padZeros k (natToCharsRaw (n % 10 ^ k))).length = k := by
    unfold padZeros
    rw [List.length_append, List.length_replicate]
    omega
  have hb : parseDigitsBE (padZeros k (natToCharsRaw (n % 10 ^ k))) =
      some (n % 10 ^ k) := by
    unfold padZeros
    exact parseDigitsBE_padded _ _ (by omega)
  unfold printDecimal parseNum
  rw [splitOnChar_append '.' _ _ hdot_a, splitOnChar_no_sep '.' _ hdot_b]
  simp only [parseDigitsBE_natToChars, hb, hblen]
  congr 1
  have hdm := Nat.div_add_mod n (10 ^ k)
  have h10 : ((10:ℚ)) ^ k ≠ 0 := by positivity
  rw [eq_div_iff h10, add_mul, div_mul_cancel₀ _ h10]
  have hnat : (n / 10 ^ k) * (10:ℕ) ^ k + n % 10 ^ k = n := by
    rw [mul_comm]
    exact hdm
  exact_mod_cast hnat

theorem decimal_den_dvd (q : ℚ) (hd : IsDecimalRat q) : q.den ∣ 10 ^ q.den := by
  rcases hd with ⟨a, b, hab⟩
  have h2a : 2 ^ a ≤ q.den := by
    rw [hab]
    exact Nat.le_mul_of_pos_right _ (pow_pos (by norm_num) b)
  have ha : a ≤ q.den := le_trans (le_of_lt (Nat.lt_two_pow a)) h2a
  have h5b : 5 ^ b ≤ q.den := by
    rw [hab]
    exact Nat.le_mul_of_pos_left _ (pow_pos (by norm_num) a)
  have hb : b ≤ q.den := le_trans (le_of_lt (Nat.lt_pow_self (by norm_num) b)) h5b
  have h10 : (10:ℕ) ^ q.den = 2 ^ q.den * 5 ^ q.den := by
    rw [show (10:ℕ) = 2 * 5 from rfl, mul_pow]
  rw [h10]
  calc q.den = 2 ^ a * 5 ^ b := hab
  _ ∣ 2 ^ q.den * 5 ^ q.den := mul_dvd_mul (pow_dvd_pow 2 ha) (pow_dvd_pow 5 hb)

theorem parseNum_printNum (q : ℚ) (h0 : 0 ≤ q) (hd : IsDecimalRat q) :
    parseNum (printNum q) = some q := by
  have hdvd := decimal_den_dvd q hd
  have hm : q.den * (10 ^ q.den / q.den) = 10 ^ q.den := Nat.mul_div_cancel' hdvd
  set m := 10 ^ q.den / q.den with hmdef
  have hm0 : m ≠ 0 := by
    intro h
    rw [h, Nat.mul_zero] at hm
    exact absurd hm.symm (by positivity)
  have hcast : ((10:ℚ)) ^ q.den = ((q.den : ℚ)) * (m : ℚ) := by
    exact_mod_cast congrArg (fun x : ℕ => (x : ℚ)) hm.symm
  have hden : ((q.den : ℚ)) ≠ 0 := Nat.cast_ne_zero.mpr q.den_nz
  have hqd : q * (q.den : ℚ) = (q.num : ℚ) := by
    have hq := Rat.num_div_den q
    calc q * (q.den : ℚ) = (q.num : ℚ) / (q.den : ℚ) * (q.den : ℚ) := by rw [hq]
    _ = (q.num : ℚ) := div_mul_cancel₀ _ hden
  have hqmul : q * 10 ^ q.den = ((q.num * (m:ℤ) : ℤ) : ℚ) := by
    rw [hcast, ← mul_assoc, hqd]
    push_cast
    ring
  have hfloor : ⌊q * 10 ^ q.den⌋ = q.num * (m:ℤ) := by
    rw [hqmul, Int.floor_intCast]
  have hnum0 : 0 ≤ q.num := Rat.num_nonneg.mpr h0
  have hton : ((⌊q * 10 ^ q.den⌋.toNat : ℤ)) = q.num * (m:ℤ) := by
    rw [hfloor, Int.toNat_of_nonneg (mul_nonneg hnum0 (by positivity))]
  unfold printNum
  rw [parseNum_printDecimal _ _ q.pos]
  congr 1
  have hcn : ((⌊q * 10 ^ q.den⌋.toNat : ℚ)) = (q.num : ℚ) * (m : ℚ) := by
    exact_mod_cast hton
  rw [hcn, hcast]
  rw [mul_div_mul_right _ _ (by exact_mod_cast hm0 : ((m:ℚ)) ≠ 0)]
  exact Rat.num_div_den q

/-! ## C8: the grid round-trip -/

theorem printNum_ne_nil (q : ℚ) : printNum q ≠ [] := by
  unfold printNum printDecimal
  intro h
  have := congrArg List.length h
  simp [List.length_append] at this

theorem parseParamLine_paramLine (p : ℚ × ℚ) (h1 : 0 ≤ p.1) (h2 : 0 ≤ p.2)
    (hd1 : IsDecimalRat p.1) (hd2 : IsDecimalRat p.2) :
    parseParamLine (paramLine p) = some p := by
  have hcomma_a : ',' ∉ printNum p.1 :=
    fun hm => absurd rfl (printNum_char_not_special hm).2.1
  have hspace_a : ∀ c ∈ printNum p.1, isPySpace c = false :=
    fun c hc => (printNum_char_not_special hc).2.2
  have hspace_b : ∀ c ∈ printNum p.2, isPySpace c = false :=
    fun c hc => (printNum_char_not_special hc).2.2
  have hcomma_b : ',' ∉ (' ' :: (printNum p.2 ++ ['\n'])) := by
    intro hm
    rcases List.mem_cons.mp hm with he | hm2
    · exact absurd he (by decide)
    · rcases List.mem_append.mp hm2 with h3 | h4
      · exact absurd rfl (printNum_char_not_special h3).2.1
      · exact absurd (List.mem_singleton.mp h4) (by decide)
  unfold parseParamLine paramLine
  simp only [List.append_assoc, List.cons_append]
  rw [splitOnChar_append ',' _ _ hcomma_a, splitOnChar_no_sep ',' _ hcomma_b]
  simp only [pyStrip_no_space _ hspace_a,
    pyStrip_strip_one _ (printNum_ne_nil p.2) hspace_b,
    parseNum_printNum p.1 h1 hd1, parseNum_printNum p.2 h2 hd2]

/-- C8: for every grid of pairs of non-negative values with the discount
in `[0, 1)` and both coordinates finite decimals (every IEEE float the
source can hold is one), reloading the persisted parameter file
reconstructs the grid exactly: `deserialize (serialize grid) = grid`. -/
theorem C8_grid_roundtrip :
    ∀ grid : List (ℚ × ℚ),
      (∀ p ∈ grid, 0 ≤ p.1 ∧ 0 ≤ p.2 ∧ p.2 < 1 ∧
        IsDecimalRat p.1 ∧ IsDecimalRat p.2) →
      deserializeGrid (serializeGrid grid) = some grid := by
  intro grid
  induction grid with
  | nil => intro _; rfl
  | cons p t ih =>
    intro h
    rcases h p (List.mem_cons_self p t) with ⟨h1, h2, _, hd1, hd2⟩
    have iht := ih (fun x hx => h x (List.mem_cons_of_mem p hx))
    unfold deserializeGrid at iht ⊢
    rw [readlines_serializeGrid] at iht ⊢
    simp only [List.map_cons, optMapM,
      parseParamLine_paramLine p h1 h2 hd1 hd2, iht]

/-- C8 witness: a three-pair grid with integer, half and three-tenths
values round-trips. -/
theorem C8_grid_roundtrip_witness :
    (∀ p ∈ [((0:ℚ), (0:ℚ)), ((50:ℚ), (1:ℚ)/2), ((1:ℚ), (3:ℚ)/10)],
        0 ≤ p.1 ∧ 0 ≤ p.2 ∧ p.2 < 1 ∧ IsDecimalRat p.1 ∧ IsDecimalRat p.2) ∧
      deserializeGrid (serializeGrid
          [((0:ℚ), (0:ℚ)), ((50:ℚ), (1:ℚ)/2), ((1:ℚ), (3:ℚ)/10)]) =
        some [((0:ℚ), (0:ℚ)), ((50:ℚ), (1:ℚ)/2), ((1:ℚ), (3:ℚ)/10)] := by
  have h : ∀ p ∈ [((0:ℚ), (0:ℚ)), ((50:ℚ), (1:ℚ)/2), ((1:ℚ), (3:ℚ)/10)],
      0 ≤ p.1 ∧ 0 ≤ p.2 ∧ p.2 < 1 ∧ IsDecimalRat p.1 ∧ IsDecimalRat p.2 := by
    intro p hp
    simp only [List.mem_cons, List.not_mem_nil, or_false] at hp
    rcases hp with rfl | rfl | rfl
    · exact ⟨le_refl 0, le_refl 0, by norm_num, ⟨0, 0, by norm_num⟩, ⟨0, 0, by norm_num⟩⟩
    · exact ⟨by norm_num, by norm_num, by norm_num, ⟨0, 0, by norm_num⟩, ⟨1, 0, by norm_num⟩⟩
    · exact ⟨by norm_num, by norm_num, by norm_num, ⟨0, 0, by norm_num⟩, ⟨1, 1, by norm_num⟩⟩
  exact ⟨h, C8_grid_roundtrip _ h⟩

end Experiment
